import Mathlib

/-
Verification of the dshot dependency-resolution registry (Go), via a shallow
embedding of its core: the type matcher (isExactMatch / isSimilarType /
resolveAndConvert), the entry lifecycle state machine (entry.resolve), and the
container operations (Provide, Register/Bind, Get, Find, Resolve,
findSingleEntry, Inject, Clear, NewToken) over an explicit heap of entries,
containers and token objects.

Modelling conventions:
- Go reflect.Type is modelled by `GoType` restricted to the shapes the engine
  inspects: a concrete non-pointer type (`base`), a pointer (`ptr`), and an
  interface (`iface`).  Assignability of a non-interface target collapses to
  type identity; interface satisfaction is supplied by a `TypeEnv` table.
- Go values unboxed from `any` are modelled by `GoValue`; `nilv` is the
  untyped nil interface (reflect.TypeOf = nil), `nilPtr` a typed nil pointer.
  A value unboxed from an interface is never addressable in Go, so the
  CanAddr branch of resolveAndConvert and the fresh-slot branch both yield a
  pointer to the value; the model has a single `ptrTo` result for either.
- Pointers (entries, containers, token objects) are heap indices into a
  `World`; Go map keys of type `any` holding token pointers compare by
  pointer identity, hence registry keys are token indices.
- Go map iteration in findSingleEntry is in unspecified order; the model
  iterates in insertion order (the claims proved here do not depend on the
  order among several similar matches).
- Go panics are modelled as `Except.error` carrying the panic message.
- sync.Once / the RWMutex serialise operations; the model is the sequential
  semantics of the source under that serialisation, with an instrumentation
  counter `calls` recording how often the factory of an entry has been invoked.
-/

namespace DShot

/-- Fragment of Go reflect.Type inspected by the engine: concrete non-pointer
types, pointer types, and interface types. -/
inductive GoType where
  | base (id : Nat) : GoType
  | ptr (elem : GoType) : GoType
  | iface (id : Nat) : GoType
deriving DecidableEq, Repr

/-- Kind() == reflect.Ptr. -/
def GoType.isPtr : GoType → Bool
  | .ptr _ => true
  | _ => false

/-- Kind() == reflect.Interface. -/
def GoType.isIface : GoType → Bool
  | .iface _ => true
  | _ => false

/-- Elem() of a pointer type (only ever applied to pointers by the source). -/
def GoType.elem : GoType → GoType
  | .ptr t => t
  | t => t

/-- Models reflect.Type.String(), used to synthesise provided-handle keys. -/
def GoType.str : GoType → String
  | .base i => ("T" ++ toString i)
  | .ptr t => ("*" ++ t.str)
  | .iface i => ("I" ++ toString i)

/-- Models PkgPath() + "." + Name(), used by NewToken key derivation. -/
def GoType.qualName (t : GoType) : String :=
  ("pkg." ++ t.str)

/-- Static type information the Go runtime supplies through reflection:
which types implement which interface, and the field list of struct kinds
(`none` for non-struct base types). -/
structure TypeEnv where
  implementsI : GoType → Nat → Bool
  structFields : Nat → Option (List (String × GoType))

/-- Container.isExactMatch: an interface target is matched by Implements;
otherwise AssignableTo, which for the concrete types the engine handles is
type identity. -/
def isExactMatch (env : TypeEnv) (target val : GoType) : Bool :=
  match target with
  | .iface i => env.implementsI val i
  | _ => decide (val = target)

/-- Container.isSimilarType: a pointer/value shape mismatch over the same
element type; identical types are never similar. -/
def isSimilarType (target val : GoType) : Bool :=
  if target = val then false
  else if target.isPtr && !val.isPtr then decide (target.elem = val)
  else if !target.isPtr && val.isPtr then decide (val.elem = target)
  else false

/-- Go values as stored in and produced by the registry.  `structV` is a
struct value built by Inject. -/
inductive GoValue where
  | nilv : GoValue
  | bare (ty : GoType) (data : Nat) : GoValue
  | ptrTo (elem : GoType) (data : Nat) : GoValue
  | nilPtr (elem : GoType) : GoValue
  | structV (tyId : Nat) (fields : List (String × GoValue)) : GoValue

/-- reflect.TypeOf on an `any`: nil for the untyped nil interface. -/
def GoValue.typeOf : GoValue → Option GoType
  | .nilv => none
  | .bare ty _ => some ty
  | .ptrTo e _ => some (.ptr e)
  | .nilPtr e => some (.ptr e)
  | .structV i _ => some (.base i)

/-- Lifecycle from container.go. -/
inductive Lifecycle where
  | Singleton : Lifecycle
  | Prototype : Lifecycle
deriving DecidableEq, Repr

/-- entry from the dshot package: a stored value or a deferred factory, the
declared produced type (nil reflect.Type modelled as `none`), the lifecycle,
and the sync.Once state.  `calls` instruments how many times the factory has
been invoked; the factory takes the invocation index so that a prototype can
produce a fresh result per call. -/
structure Entry where
  value : GoValue
  factory : Option (Nat → GoValue)
  depType : Option GoType
  lifecycle : Lifecycle
  onceDone : Bool
  calls : Nat

/-- entry.resolve: a value entry returns the stored value; a Prototype
factory entry invokes the factory afresh; a Singleton factory entry invokes
it under sync.Once exactly once, memoising the result into `value`. -/
def Entry.resolve (e : Entry) : GoValue × Entry :=
  match e.factory with
  | none => (e.value, e)
  | some f =>
    match e.lifecycle with
    | .Prototype => (f e.calls, ⟨e.value, some f, e.depType, e.lifecycle, e.onceDone, e.calls + 1⟩)
    | .Singleton =>
      if e.onceDone then (e.value, e)
      else
        (f e.calls, ⟨f e.calls, some f, e.depType, e.lifecycle, true, e.calls + 1⟩)

/-- n sequential resolve() calls against one entry, collecting the returned
values and the final entry state. -/
def resolveN : Nat → Entry → List GoValue × Entry
  | 0, e => ([], e)
  | n + 1, e =>
    let p := e.resolve
    let q := resolveN n p.2
    (p.1 :: q.1, q.2)

/-- The entry created by ProvideFactory (Singleton lifecycle, no stored
value yet). -/
def singletonEntry (t : GoType) (f : Nat → GoValue) : Entry :=
  ⟨.nilv, some f, some t, .Singleton, false, 0⟩

/-- The entry created by ProvidePrototype. -/
def prototypeEntry (t : GoType) (f : Nat → GoValue) : Entry :=
  ⟨.nilv, some f, some t, .Prototype, false, 0⟩

/-- Container from container.go: the handle registry (token identity →
entry pointer), the type index (declared type → entries in registration
order), and the fixed optional parent pointer. -/
structure Container where
  registry : List (Nat × Nat)
  typeRegistry : List (GoType × List Nat)
  parent : Option Nat

/-- The process heap: entry objects, container objects and token objects,
addressed by index.  The payload of a token object is its key string; its map
identity is its index, which models Go pointer identity of *Token / *tokenKey
values used as map[any] keys. -/
structure World where
  entries : List Entry
  containers : List Container
  tokens : List String

/-- Go map read registry[token]. -/
def lookupTok : List (Nat × Nat) → Nat → Option Nat
  | [], _ => none
  | (k, v) :: rest, tok => if k = tok then some v else lookupTok rest tok

/-- Go map write registry[token] = e (replaces an existing binding of the
same key, otherwise adds one). -/
def tokPut : List (Nat × Nat) → Nat → Nat → List (Nat × Nat)
  | [], tok, eid => [(tok, eid)]
  | (k, v) :: rest, tok, eid =>
    if k = tok then (tok, eid) :: rest else (k, v) :: tokPut rest tok eid

/-- Go map read typeRegistry[t]. -/
def lookupType : List (GoType × List Nat) → GoType → Option (List Nat)
  | [], _ => none
  | (u, l) :: rest, t => if u = t then some l else lookupType rest t

/-- typeRegistry[t] = append(typeRegistry[t], e). -/
def typePut : List (GoType × List Nat) → GoType → Nat → List (GoType × List Nat)
  | [], t, eid => [(t, [eid])]
  | (u, l) :: rest, t, eid =>
    if u = t then (u, l ++ [eid]) :: rest else (u, l) :: typePut rest t eid

/-- Allocate an entry object, returning its address. -/
def World.addEntry (w : World) (e : Entry) : World × Nat :=
  (⟨w.entries ++ [e], w.containers, w.tokens⟩, w.entries.length)

/-- Allocate a token object with the given key, returning its address. -/
def World.newTokenRaw (w : World) (key : String) : World × Nat :=
  (⟨w.entries, w.containers, w.tokens ++ [key]⟩, w.tokens.length)

/-- Mutate the container object at an address. -/
def World.updateContainer (w : World) (cid : Nat) (f : Container → Container) : World :=
  match w.containers[cid]? with
  | some c => ⟨w.entries, w.containers.set cid (f c), w.tokens⟩
  | none => w

/-- depType of the entry at an address (none both for a dangling address,
which cannot arise from the source operations, and for an entry whose
declared type was never set). -/
def World.entryTypeOf (w : World) (eid : Nat) : Option GoType :=
  match w.entries[eid]? with
  | some e => e.depType
  | none => none

/-- Dereference and resolve the entry at an address, writing back the
updated entry state (singleton memoisation, invocation count). -/
def World.resolveEntry (w : World) (eid : Nat) : GoValue × World :=
  match w.entries[eid]? with
  | some e =>
    let p := e.resolve
    (p.1, ⟨w.entries.set eid p.2, w.containers, w.tokens⟩)
  | none => (.nilv, w)

/-- New(): a root container with empty maps and no parent. -/
def World.NewC (w : World) : World × Nat :=
  (⟨w.entries, w.containers ++ [⟨[], [], none⟩], w.tokens⟩, w.containers.length)

/-- NewScoped(parent): panics on a nil parent, otherwise a fresh container
whose parent pointer is fixed at construction. -/
def World.NewScoped (w : World) (parent : Option Nat) : Except String (World × Nat) :=
  match parent with
  | none => .error ("NewScoped: parent container cannot be nil")
  | some p =>
    .ok (⟨w.entries, w.containers ++ [⟨[], [], some p⟩], w.tokens⟩, w.containers.length)

/-- NewToken key derivation when no usable name is supplied: panics for a
nil interface type, strips one pointer, and uses the qualified type name. -/
def tokenKeyDerived : Option GoType → Except String String
  | none => .error ("cannot create token for nil interface without explicit name")
  | some t => .ok ((if t.isPtr then t.elem else t).qualName)

/-- NewToken key selection: an explicit non-empty name wins, otherwise the
key is derived from the type parameter. -/
def tokenKeyOf (name : Option String) (typ : Option GoType) : Except String String :=
  match name with
  | some n => if n = "" then tokenKeyDerived typ else .ok n
  | none => tokenKeyDerived typ

/-- NewToken[T](name...): allocates a fresh token object carrying the
computed key.  `typ` is reflect.TypeOf of the zero value of T (none for an
interface T). -/
def World.NewToken (w : World) (name : Option String) (typ : Option GoType) :
    Except String (World × Nat) :=
  match tokenKeyOf name typ with
  | .error m => .error m
  | .ok k => .ok (w.newTokenRaw k)

/-- Key synthesised by Provide / provideFactoryWithLifecycle for the
internal tokenKey: "__provided__" + typ.String(). -/
def providedKey (t : GoType) : String :=
  ("__provided__" ++ t.str)

/-- Container.Provide: panics on an untyped nil value; otherwise allocates a
fresh internal tokenKey, creates a Singleton value entry whose declared type
is the runtime type of the value, stores it in the registry under the token and
appends it to the type index under that type. -/
def World.Provide (w : World) (cid : Nat) (v : GoValue) : Except String World :=
  match v.typeOf with
  | none => .error ("Provide: cannot register nil value")
  | some t =>
    let p1 := w.newTokenRaw (providedKey t)
    let p2 := p1.1.addEntry ⟨v, none, some t, .Singleton, false, 0⟩
    .ok (p2.1.updateContainer cid (fun c =>
      ⟨tokPut c.registry p1.2 p2.2, typePut c.typeRegistry t p2.2, c.parent⟩))

/-- provideFactoryWithLifecycle after its reflection checks (callable, one
return value) have passed: a factory entry declared at the return
type of the factory, keyed by a fresh internal tokenKey and appended to the type index. -/
def World.provideFactoryWithLifecycle (w : World) (cid : Nat) (rt : GoType)
    (f : Nat → GoValue) (lc : Lifecycle) : World :=
  let p1 := w.newTokenRaw (providedKey rt)
  let p2 := p1.1.addEntry ⟨.nilv, some f, some rt, lc, false, 0⟩
  p2.1.updateContainer cid (fun c =>
    ⟨tokPut c.registry p1.2 p2.2, typePut c.typeRegistry rt p2.2, c.parent⟩)

/-- ProvideFactory = Singleton lifecycle. -/
def World.ProvideFactory (w : World) (cid : Nat) (rt : GoType) (f : Nat → GoValue) : World :=
  w.provideFactoryWithLifecycle cid rt f .Singleton

/-- ProvidePrototype = Prototype lifecycle. -/
def World.ProvidePrototype (w : World) (cid : Nat) (rt : GoType) (f : Nat → GoValue) : World :=
  w.provideFactoryWithLifecycle cid rt f .Prototype

/-- Registration[T] from registration.go: a deferred binding of a token to a
value or factory.  `typ` is reflect.TypeOf of the zero value of T, which is nil
(`none`) exactly when T is an interface type. -/
structure Registration where
  token : Nat
  value : GoValue
  factory : Option (Nat → GoValue)
  lifecycle : Lifecycle
  typ : Option GoType

/-- Bind(token, value): a value registration with the zero (Singleton)
lifecycle. -/
def Bind (token : Nat) (value : GoValue) (typ : Option GoType) : Registration :=
  ⟨token, value, none, .Singleton, typ⟩

/-- Registration.registerTo: builds the entry (factory if present, else the
value), sets depType and appends to the type index only when reflect.TypeOf
of the zero element is non-nil, then stores the entry under the token. -/
def Registration.registerTo (r : Registration) (w : World) (cid : Nat) : World :=
  let e : Entry :=
    ⟨(match r.factory with | some _ => .nilv | none => r.value),
      r.factory, r.typ, r.lifecycle, false, 0⟩
  let p := w.addEntry e
  p.1.updateContainer cid (fun c =>
    ⟨tokPut c.registry r.token p.2,
      (match r.typ with
        | some t => typePut c.typeRegistry t p.2
        | none => c.typeRegistry),
      c.parent⟩)

/-- Container.Register: applies each registration in order under one lock
acquisition. -/
def World.Register (w : World) (cid : Nat) (regs : List Registration) : World :=
  regs.foldl (fun wa r => r.registerTo wa cid) w

/-- Container.getEntry: local registry lookup, then the parent chain.  The
fuel bounds the chain walk; the source chain is finite because parent links
are fixed at construction to earlier containers. -/
def World.getEntryAux (w : World) : Nat → Nat → Nat → Option Nat
  | 0, _, _ => none
  | fuel + 1, cid, tok =>
    match w.containers[cid]? with
    | none => none
    | some c =>
      match lookupTok c.registry tok with
      | some eid => some eid
      | none =>
        match c.parent with
        | some p => w.getEntryAux fuel p tok
        | none => none

/-- getEntry with enough fuel for any ancestor chain in the heap. -/
def World.getEntry (w : World) (cid tok : Nat) : Option Nat :=
  w.getEntryAux w.containers.length cid tok

/-- Container.Get: panics with "dependency not found" when the whole chain
misses, otherwise resolves the found entry. -/
def World.Get (w : World) (cid tok : Nat) : Except String (GoValue × World) :=
  match w.getEntry cid tok with
  | some eid => .ok (w.resolveEntry eid)
  | none => .error ("dependency not found: " ++ (w.tokens.getD tok ""))

/-- Find (package level): getEntry plus resolve, reporting absence as a
boolean-style miss instead of a panic. -/
def World.Find (w : World) (cid tok : Nat) : Option GoValue × World :=
  match w.getEntry cid tok with
  | some eid =>
    let p := w.resolveEntry eid
    (some p.1, p.2)
  | none => (none, w)

/-- Container.Clear: replaces only the two maps of this container with fresh
empty maps; the parent pointer and all other heap objects are untouched. -/
def World.Clear (w : World) (cid : Nat) : World :=
  w.updateContainer cid (fun c => ⟨[], [], c.parent⟩)

/-- Panic message of the Resolve type-index fast path when several entries
are registered under the requested type. -/
def multiRegMsg (t : GoType) (n : Nat) : String :=
  ("multiple candidates found for type " ++ t.str ++ ": found " ++ toString n
    ++ " registrations")

/-- Panic message of the findSingleEntry scan on a second exact match. -/
def multiScanMsg (t : GoType) : String :=
  ("multiple candidates found for type " ++ t.str ++ " in registry")

/-- Runtime panic raised when the scan calls a reflect.Type method on an
entry whose depType was never set (nil interface method call). -/
def nilTypeMsg : String :=
  ("runtime error: invalid memory address or nil pointer dereference")

/-- Accumulator of the findSingleEntry scan loop: the exactMatch and
similarMatch slots, or a pending panic. -/
inductive ScanAcc where
  | ok (ex : Option Nat) (sim : Option Nat) : ScanAcc
  | panicked (msg : String) : ScanAcc
deriving Repr

/-- One iteration of the findSingleEntry loop body over the entry at `eid`:
an exact match fills the exact slot (a second one panics); otherwise the
first similar match fills the similar slot. -/
def scanStep (env : TypeEnv) (w : World) (t : GoType) (acc : ScanAcc) (eid : Nat) : ScanAcc :=
  match acc with
  | .panicked m => .panicked m
  | .ok ex sim =>
    match w.entryTypeOf eid with
    | none => .panicked nilTypeMsg
    | some vt =>
      if isExactMatch env t vt then
        match ex with
        | some _ => .panicked (multiScanMsg t)
        | none => .ok (some eid) sim
      else if sim.isNone && isSimilarType t vt then .ok ex (some eid)
      else .ok ex sim

/-- The full scan of the entries of a registry. -/
def scanIds (env : TypeEnv) (w : World) (t : GoType) : List Nat → ScanAcc → ScanAcc
  | [], acc => acc
  | eid :: rest, acc => scanIds env w t rest (scanStep env w t acc eid)

/-- Runtime panic of reflect.Value.Type applied to the invalid Value that
reflect.ValueOf yields on an untyped nil resolved candidate. -/
def nilValueTypeMsg : String :=
  ("reflect: call of reflect.Value.Type on zero Value")

/-- The conversion part of Container.resolveAndConvert applied to the
already-resolved candidate value.  The source first takes
reflect.ValueOf(resolved).Type(), which panics when the resolved candidate
is the untyped nil interface (reachable through a factory with an interface
return type that returns nil).  Otherwise: identity when the types already
agree; bare-to-pointer wraps the value in a (fresh) pointer slot — values
unboxed from `any` are never addressable in Go, so the CanAddr branch cannot
fire here and both source branches produce a pointer to the value;
pointer-to-bare dereferences, with a nil pointer or an element-type mismatch
reported as a miss (`.ok none`). -/
def convertValue (target : GoType) (resolved : GoValue) : Except String (Option GoValue) :=
  match resolved.typeOf with
  | none => .error nilValueTypeMsg
  | some rty =>
    if rty = target then .ok (some resolved)
    else if target.isPtr && !rty.isPtr then
      if target.elem = rty then
        match resolved with
        | .bare ty d => .ok (some (.ptrTo ty d))
        | other => .ok (some other)
      else .ok none
    else if !target.isPtr && rty.isPtr then
      if rty.elem = target then
        match resolved with
        | .ptrTo e d => .ok (some (.bare e d))
        | _ => .ok none
      else .ok none
    else .ok (some resolved)

/-- Container.resolveAndConvert: resolve the entry, then (when conversion is
requested) coerce the result to the target shape; a failed coercion is a
miss, not a panic, but an untyped-nil resolved candidate panics in the
reflect.Value.Type call. -/
def World.resolveAndConvert (w : World) (t : GoType) (eid : Nat) (needsConversion : Bool) :
    Except String (Option GoValue × World) :=
  let p := w.resolveEntry eid
  if needsConversion then
    match convertValue t p.1 with
    | .error m => .error m
    | .ok r => .ok (r, p.2)
  else .ok (some p.1, p.2)

/-- Container.findSingleEntry: scan the local registry for at most one exact
and the first similar match (two exacts panic); return a local exact match,
else delegate to the parent chain, else fall back to the coerced local
similar match, else miss.  The fuel bounds the (source-finite) parent
chain. -/
def World.findSingleEntry (env : TypeEnv) : Nat → World → Nat → GoType →
    Except String (Option GoValue × World)
  | 0, w, _, _ => .ok (none, w)
  | fuel + 1, w, cid, t =>
    match w.containers[cid]? with
    | none => .ok (none, w)
    | some c =>
      match scanIds env w t (c.registry.map Prod.snd) (.ok none none) with
      | .panicked m => .error m
      | .ok ex sim =>
        match ex with
        | some eid =>
          let p := w.resolveEntry eid
          .ok (some p.1, p.2)
        | none =>
          match c.parent with
          | some pid =>
            match World.findSingleEntry env fuel w pid t with
            | .error m => .error m
            | .ok (some v, w2) => .ok (some v, w2)
            | .ok (none, w2) =>
              match sim with
              | some s => w2.resolveAndConvert t s true
              | none => .ok (none, w2)
          | none =>
            match sim with
            | some s => w.resolveAndConvert t s true
            | none => .ok (none, w)

/-- Container.Resolve: the local type-index fast path (a unique entry is
resolved, several panic as ambiguous, the empty or absent list falls
through), otherwise the findSingleEntry scan over the scope chain. -/
def World.Resolve (env : TypeEnv) (w : World) (cid : Nat) (t : GoType) :
    Except String (Option GoValue × World) :=
  match w.containers[cid]? with
  | none => .ok (none, w)
  | some c =>
    match lookupType c.typeRegistry t with
    | some (eid :: rest) =>
      match rest with
      | [] =>
        let p := w.resolveEntry eid
        .ok (some p.1, p.2)
      | _ :: _ => .error (multiRegMsg t (rest.length + 1))
    | some [] => World.findSingleEntry env w.containers.length w cid t
    | none => World.findSingleEntry env w.containers.length w cid t

/-- The field loop of Container.Inject over the remaining fields of the
target struct: each field is resolved by type; on a miss a struct-kind field
is recursively constructed and injected, any other unresolved field panics.
The fuel bounds the recursion, which the source leaves unguarded. -/
def World.injectFields (env : TypeEnv) : Nat → World → Nat → List (String × GoType) →
    Except String (List (String × GoValue) × World)
  | 0, _, _, _ => .error ("inject recursion limit")
  | _ + 1, w, _, [] => .ok ([], w)
  | fuel + 1, w, cid, (fname, fty) :: rest =>
    match World.Resolve env w cid fty with
    | .error m => .error m
    | .ok (some v, w1) =>
      match World.injectFields env fuel w1 cid rest with
      | .error m => .error m
      | .ok (tl, w2) => .ok ((fname, v) :: tl, w2)
    | .ok (none, w1) =>
      match fty with
      | .base fid =>
        match env.structFields fid with
        | some ffs =>
          match World.injectFields env fuel w1 cid ffs with
          | .error m => .error m
          | .ok (sub, w2) =>
            match World.injectFields env fuel w2 cid rest with
            | .error m => .error m
            | .ok (tl, w3) => .ok ((fname, .structV fid sub) :: tl, w3)
        | none => .error ("Inject: could not resolve field " ++ fname)
      | _ => .error ("Inject: could not resolve field " ++ fname)

/-- Container.Inject on a value of type `targetTy`: panics unless the target
is a pointer to a struct, then populates every field, returning the struct
value written through the pointer. -/
def World.Inject (env : TypeEnv) (fuel : Nat) (w : World) (cid : Nat) (targetTy : GoType) :
    Except String (GoValue × World) :=
  match targetTy with
  | .ptr (.base id) =>
    match env.structFields id with
    | some flds =>
      match World.injectFields env fuel w cid flds with
      | .error m => .error m
      | .ok (fs, w2) => .ok (.structV id fs, w2)
    | none => .error ("Inject: target must be a pointer to a struct")
  | _ => .error ("Inject: target must be a pointer to a struct")

/-- Boolean classification used to state the search claims: the entry at
`eid` is an exact match for the target type. -/
def exactEntry (env : TypeEnv) (w : World) (t : GoType) (eid : Nat) : Bool :=
  match w.entryTypeOf eid with
  | some vt => isExactMatch env t vt
  | none => false

/-- The entry at `eid` is a similar (and not exact) match for the target
type — the only entries the similar slot of the scan can record. -/
def similarOnlyEntry (env : TypeEnv) (w : World) (t : GoType) (eid : Nat) : Bool :=
  match w.entryTypeOf eid with
  | some vt => !isExactMatch env t vt && isSimilarType t vt
  | none => false

/-- A registration-phase operation on one container (the operations claim C5
quantifies over). -/
inductive RegOp where
  | provideV (v : GoValue) : RegOp
  | provideF (rt : GoType) (f : Nat → GoValue) (lc : Lifecycle) : RegOp
  | registerB (regs : List Registration) : RegOp

/-- Apply one registration operation; a Provide panic (nil value) leaves the
maps untouched, as the source panics before taking the write lock. -/
def applyOp (w : World) (cid : Nat) : RegOp → World
  | .provideV v =>
    match w.Provide cid v with
    | .ok w2 => w2
    | .error _ => w
  | .provideF rt f lc => w.provideFactoryWithLifecycle cid rt f lc
  | .registerB regs => w.Register cid regs

/-- Apply a sequence of registration operations. -/
def applyOps (w : World) (cid : Nat) : List RegOp → World
  | [] => w
  | op :: rest => applyOps (applyOp w cid op) cid rest

/-- Token-based registrations with a non-interface element type (those whose
reflect.TypeOf zero value is non-nil); Provide operations are always in this
class. -/
def opOK : RegOp → Prop
  | .registerB regs => ∀ r ∈ regs, r.typ.isSome = true
  | _ => True

/-- The registry/type-index coherence invariant of claim C5: every entry
reachable from the handle registry has its declared type set and appears in
the type index under that type. -/
def RegInv (w : World) (cid : Nat) : Prop :=
  ∀ c, w.containers[cid]? = some c →
    ∀ tok eid, (tok, eid) ∈ c.registry →
      ∃ t, w.entryTypeOf eid = some t ∧ eid ∈ (lookupType c.typeRegistry t).getD []

/-- The type-index list of a container for a type (empty when absent). -/
def typeListAt (w : World) (cid : Nat) (t : GoType) : List Nat :=
  match w.containers[cid]? with
  | some c => (lookupType c.typeRegistry t).getD []
  | none => []

/-- A trivial type environment: no interfaces, no struct kinds (the concrete
scenarios below resolve plain values). -/
def env0 : TypeEnv := ⟨fun _ _ => false, fun _ => none⟩

/-- A world holding exactly one root container (index 0), as built by
New(). -/
def rootWorld : World := (World.NewC ⟨[], [], []⟩).1

/-- Two values of the same type provided to one root container (the C2
scenario). -/
def twoProvideWorld (d1 d2 : Nat) : World :=
  (((rootWorld.Provide 0 (.bare (.base 0) d1)).bind
    (fun w => w.Provide 0 (.bare (.base 0) d2))).toOption).getD rootWorld

/-- A typed nil pointer provided to a root container (the C7 scenario). -/
def nilPtrWorld : World :=
  ((rootWorld.Provide 0 (.nilPtr (.base 0))).toOption).getD rootWorld

/-- Parent (container 0) holding an exact value for T0, scoped child
(container 1) holding only a pointer-shaped similar candidate (the C1
scenario). -/
def chainWorld : World :=
  let a := ((rootWorld.Provide 0 (.bare (.base 0) 5)).toOption).getD rootWorld
  let b := (((a.NewScoped (some 0)).toOption).getD (a, 1)).1
  ((b.Provide 1 (.ptrTo (.base 0) 9)).toOption).getD b

/-- Type environment of the C6 scenario: base 1 is a struct with one field
DB of type pointer-to-base-0 (Repository { DB *Database }). -/
def injectEnv : TypeEnv :=
  ⟨fun _ _ => false, fun i => if i = 1 then some [("DB", .ptr (.base 0))] else none⟩

/-- A bare (non-pointer) Database value provided to a root container (the C6
scenario). -/
def injectWorld (d : Nat) : World :=
  ((rootWorld.Provide 0 (.bare (.base 0) d)).toOption).getD rootWorld

/-- Two token objects allocated with the same name, the first bound to a
value (the C10 scenario). -/
def tokenPairWorld (name : String) (tv : GoValue) (ty : Option GoType) : World :=
  let q1 := rootWorld.newTokenRaw name
  let q2 := q1.1.newTokenRaw name
  q2.1.Register 0 [Bind q1.2 tv ty]

/-- An interface-typed Bind applied to a root container: reflect.TypeOf of
the zero element is nil, so the registration carries no type (the C5
counterexample scenario). -/
def ifaceBindWorld : World :=
  let q := rootWorld.newTokenRaw "ifaceTok"
  q.1.Register 0 [Bind q.2 (.bare (.base 0) 7) none]

/-- A scoped container (child of an empty root) holding one interface-typed
Bind, so its single entry has no declared type (the C1 counterexample
scenario, part one). -/
def ifaceScopedWorld : World :=
  let a := (((rootWorld.NewScoped (some 0)).toOption).getD (rootWorld, 1)).1
  let q := a.newTokenRaw "ifaceTok"
  q.1.Register 1 [Bind q.2 (.bare (.base 0) 7) none]

/-- A root container holding a Singleton factory with an interface return
type whose factory returns the untyped nil interface (the C1 counterexample
scenario, part two). -/
def nilFactoryWorld : World :=
  rootWorld.ProvideFactory 0 (.iface 0) (fun _ => .nilv)

end DShot

namespace DShot

/-- A memoised singleton entry replays its stored value on every subsequent
resolve without touching its state. -/
theorem resolveN_memoized (f : Nat → GoValue) (d : Option GoType) (v : GoValue) (k m : Nat) :
    resolveN m ⟨v, some f, d, .Singleton, true, k⟩ =
      (List.replicate m v, ⟨v, some f, d, .Singleton, true, k⟩) := by
  induction m with
  | zero => rfl
  | succ n ih => simp [resolveN, Entry.resolve, ih, List.replicate]

/-- C3: for every Singleton factory entry and every n ≥ 1, n resolve() calls
invoke the factory exactly once; the first call memoises the factory result
and every call returns that same value. -/
theorem singleton_factory_invoked_once (t : GoType) (f : Nat → GoValue) (n : Nat)
    (h : 1 ≤ n) :
    (resolveN n (singletonEntry t f)).2.calls = 1 ∧
      (resolveN n (singletonEntry t f)).1 = List.replicate n (f 0) := by
  obtain ⟨m, rfl⟩ : ∃ m, n = m + 1 := ⟨n - 1, by omega⟩
  simp [resolveN, singletonEntry, Entry.resolve, resolveN_memoized, List.replicate]

/-- Witness for C3 at n = 3 with a concrete factory. -/
theorem singleton_factory_invoked_once_witness :
    1 ≤ 3 ∧
      ((resolveN 3 (singletonEntry (.base 0) (fun i => .bare (.base 0) i))).2.calls = 1 ∧
        (resolveN 3 (singletonEntry (.base 0) (fun i => .bare (.base 0) i))).1 =
          List.replicate 3 ((fun i => GoValue.bare (.base 0) i) 0)) :=
  ⟨by decide, singleton_factory_invoked_once (.base 0) (fun i => .bare (.base 0) i) 3 (by decide)⟩

/-- A prototype entry invokes its factory afresh on every resolve, advancing
the invocation counter each time. -/
theorem resolveN_prototype (f : Nat → GoValue) (d : Option GoType) (v : GoValue)
    (b : Bool) (k m : Nat) :
    resolveN m ⟨v, some f, d, .Prototype, b, k⟩ =
      ((List.range m).map (fun i => f (k + i)), ⟨v, some f, d, .Prototype, b, k + m⟩) := by
  induction m generalizing k with
  | zero => simp [resolveN]
  | succ n ih =>
    simp only [resolveN, Entry.resolve, ih (k + 1), List.range_succ_eq_map, List.map_map,
      Prod.mk.injEq, Entry.mk.injEq]
    refine ⟨?_, trivial, trivial, trivial, trivial, trivial, by omega⟩
    simp only [List.map_cons, List.map_map, List.cons.injEq]
    exact ⟨by simp, List.map_congr_left (fun i _ => congrArg f (by simp [Function.comp]; omega))⟩

/-- C4: for every Prototype factory entry, n resolve() calls invoke the
factory exactly n times, each invocation fresh, and the n results are
pairwise distinct whenever the factory is injective. -/
theorem prototype_factory_invoked_each_time (t : GoType) (f : Nat → GoValue) (n : Nat) :
    (resolveN n (prototypeEntry t f)).2.calls = n ∧
      (resolveN n (prototypeEntry t f)).1 = (List.range n).map f ∧
      (Function.Injective f → ((resolveN n (prototypeEntry t f)).1).Nodup) := by
  have h := resolveN_prototype f (some t) .nilv false 0 n
  have hfe : (fun i => f (0 + i)) = f := by funext i; simp
  refine ⟨by simp [prototypeEntry, h], by simp [prototypeEntry, h], fun hf => ?_⟩
  simp only [prototypeEntry, h, hfe]
  exact (List.nodup_range n).map hf

/-- Once the scan loop has panicked it stays panicked. -/
theorem scanIds_panicked (env : TypeEnv) (w : World) (t : GoType) (ids : List Nat)
    (m : String) : scanIds env w t ids (.panicked m) = .panicked m := by
  induction ids with
  | nil => rfl
  | cons e rest ih => simp [scanIds, scanStep, ih]

/-- Characterisation of the findSingleEntry scan when it cannot panic: with
every scanned entry typed and at most one exact match in total, the scan
fills the exact slot with the unique exact match and the similar slot with
the first similar-only entry. -/
theorem scanIds_ok (env : TypeEnv) (w : World) (t : GoType) :
    ∀ (ids : List Nat) (ex sim : Option Nat),
      (∀ eid ∈ ids, (w.entryTypeOf eid).isSome = true) →
      (ids.filter (exactEntry env w t)).length +
          (match ex with | some _ => 1 | none => 0) ≤ 1 →
      scanIds env w t ids (.ok ex sim) =
        .ok (match ex with
              | some e => some e
              | none => (ids.filter (exactEntry env w t)).head?)
            (match sim with
              | some s => some s
              | none => ids.find? (similarOnlyEntry env w t))
  | [], ex, sim, _, _ => by cases ex <;> cases sim <;> rfl
  | e :: rest, ex, sim, hdef, hex => by
    have h0 := hdef e (by simp)
    cases hvte : w.entryTypeOf e with
    | none => rw [hvte] at h0; simp at h0
    | some vt =>
      have hdef2 : ∀ eid ∈ rest, (w.entryTypeOf eid).isSome = true :=
        fun eid he => hdef eid (by simp [he])
      by_cases hEx : isExactMatch env t vt = true
      · have hee : exactEntry env w t e = true := by
          simp [exactEntry, hvte, hEx]
        have hse : similarOnlyEntry env w t e = false := by
          simp [similarOnlyEntry, hvte, hEx]
        rw [List.filter_cons, if_pos (by simp [hee])] at hex ⊢
        cases ex with
        | some e0 => exfalso; simp at hex
        | none =>
          have hnil : rest.filter (exactEntry env w t) = [] := by
            simpa using hex
          have hstep : scanStep env w t (.ok none sim) e = .ok (some e) sim := by
            simp [scanStep, hvte, hEx]
          rw [scanIds, hstep,
            scanIds_ok env w t rest (some e) sim hdef2 (by simp [hnil])]
          cases sim <;> simp [hse, List.find?_cons]
      · have hee : exactEntry env w t e = false := by
          simp [exactEntry, hvte, hEx]
        rw [List.filter_cons, if_neg (by simp [hee])] at hex ⊢
        by_cases hS : (sim.isNone && isSimilarType t vt) = true
        · obtain ⟨hsn, hsim⟩ := Bool.and_eq_true_iff.mp hS
          have hsnone : sim = none := Option.isNone_iff_eq_none.mp hsn
          have hso : similarOnlyEntry env w t e = true := by
            simp [similarOnlyEntry, hvte, hEx, hsim]
          have hstep : scanStep env w t (.ok ex sim) e = .ok ex (some e) := by
            simp [scanStep, hvte, hEx, hS]
          rw [scanIds, hstep, scanIds_ok env w t rest ex (some e) hdef2 hex, hsnone]
          simp [List.find?_cons, hso]
        · have hS2 : (sim.isNone && isSimilarType t vt) = false := by
            cases h : (sim.isNone && isSimilarType t vt) with
            | false => rfl
            | true => exact absurd h hS
          have hstep : scanStep env w t (.ok ex sim) e = .ok ex sim := by
            simp [scanStep, hvte, hEx, hS2]
          rw [scanIds, hstep, scanIds_ok env w t rest ex sim hdef2 hex]
          cases sim with
          | some s => rfl
          | none =>
            have hsim : isSimilarType t vt = false := by simpa using hS2
            have hso : similarOnlyEntry env w t e = false := by
              simp [similarOnlyEntry, hvte, hsim]
            simp [List.find?_cons, hso]

/-- resolveAndConvert with conversion requested resolves the entry and
returns exactly the conversion outcome, propagating the conversion panic. -/
theorem resolveAndConvert_true (w : World) (t : GoType) (eid : Nat) :
    w.resolveAndConvert t eid true =
      Except.map (fun r => (r, (w.resolveEntry eid).2))
        (convertValue t (w.resolveEntry eid).1) := by
  unfold World.resolveAndConvert
  cases h : convertValue t (w.resolveEntry eid).1 <;> simp [h, Except.map]

/-- On a candidate with a non-nil runtime type the conversion never panics. -/
theorem convertValue_isOk (t : GoType) (v : GoValue) (rt : GoType)
    (hv : v.typeOf = some rt) : ∃ r, convertValue t v = .ok r := by
  cases v with
  | nilv => exact Option.noConfusion hv
  | bare ty d =>
    unfold convertValue
    repeat' split
    all_goals first
      | exact ⟨_, rfl⟩
      | simp_all [GoValue.typeOf]
  | ptrTo e d =>
    unfold convertValue
    repeat' split
    all_goals first
      | exact ⟨_, rfl⟩
      | simp_all [GoValue.typeOf]
  | nilPtr e =>
    unfold convertValue
    repeat' split
    all_goals first
      | exact ⟨_, rfl⟩
      | simp_all [GoValue.typeOf]
  | structV i fs =>
    unfold convertValue
    repeat' split
    all_goals first
      | exact ⟨_, rfl⟩
      | simp_all [GoValue.typeOf]

/-- C1 counterexample: the priority discipline does not hold of every scoped
Registry.  Part one: a scoped Registry holding one interface-element-typed
Bind has neither a local nor a parent exact or similar match for the
requested type, yet Resolve panics in the scan on calling a method of the
nil reflect.Type of that entry instead of reporting not-found.  Part two: a
Registry holding a Singleton factory with an interface return type that
returns nil has only a local similar match at the pointer-to-interface type
with the whole parent chain missing, yet the coercion panics in
reflect.Value.Type instead of returning the coerced candidate as a degraded
success. -/
theorem resolve_scope_priority_counterexample :
    (ifaceScopedWorld.containers[1]? = some ⟨[(0, 0)], [], some 0⟩ ∧
        ([(0, 0)].map Prod.snd).filter (exactEntry env0 ifaceScopedWorld (.base 5)) = [] ∧
        ([(0, 0)].map Prod.snd).find? (similarOnlyEntry env0 ifaceScopedWorld (.base 5)) =
          none ∧
        ifaceScopedWorld.containers[0]? = some ⟨[], [], none⟩ ∧
        World.Resolve env0 ifaceScopedWorld 1 (.base 5) = .error nilTypeMsg) ∧
      (([(0, 0)].map Prod.snd).filter
          (exactEntry env0 nilFactoryWorld (.ptr (.iface 0))) = [] ∧
        ([(0, 0)].map Prod.snd).find?
          (similarOnlyEntry env0 nilFactoryWorld (.ptr (.iface 0))) = some 0 ∧
        nilFactoryWorld.containers[0]? = some ⟨[(0, 0)], [(.iface 0, [0])], none⟩ ∧
        World.Resolve env0 nilFactoryWorld 0 (.ptr (.iface 0)) = .error nilValueTypeMsg) :=
  ⟨⟨rfl, rfl, rfl, rfl, rfl⟩, rfl, rfl, rfl, rfl⟩

/-- C1, amended: on a scoped Registry whose local entries all have their
declared type set (no interface-element-typed Bind present, which would make
the scan panic on a nil reflect.Type), Resolve returns a local exact match
when one exists (via the type-index fast path or the scan); with no local
exact match the same search is delegated to the parent chain and a parent
hit is returned in preference to a local similar-only match; when the whole
parent chain misses and the local similar candidate resolves to a value with
a non-nil runtime type, the coerced candidate is returned as a degraded
success (an untyped-nil candidate instead panics in the coercion); and when
nothing matches anywhere the result is a not-found miss. -/
theorem resolve_priority_for_typed_registries
    (env : TypeEnv) (w : World) (cid : Nat) (c : Container) (t : GoType) (fuel : Nat)
    (hc : w.containers[cid]? = some c)
    (hdef : ∀ eid ∈ c.registry.map Prod.snd, (w.entryTypeOf eid).isSome = true) :
    ((lookupType c.typeRegistry t = none ∨ lookupType c.typeRegistry t = some []) →
        World.Resolve env w cid t =
          World.findSingleEntry env w.containers.length w cid t) ∧
    (∀ e, lookupType c.typeRegistry t = some [e] →
        World.Resolve env w cid t = .ok (some (w.resolveEntry e).1, (w.resolveEntry e).2)) ∧
    (∀ e, (c.registry.map Prod.snd).filter (exactEntry env w t) = [e] →
        World.findSingleEntry env (fuel + 1) w cid t =
          .ok (some (w.resolveEntry e).1, (w.resolveEntry e).2)) ∧
    (∀ pid v w2, (c.registry.map Prod.snd).filter (exactEntry env w t) = [] →
        c.parent = some pid →
        World.findSingleEntry env fuel w pid t = .ok (some v, w2) →
        World.findSingleEntry env (fuel + 1) w cid t = .ok (some v, w2)) ∧
    (∀ pid w2 s rt, (c.registry.map Prod.snd).filter (exactEntry env w t) = [] →
        c.parent = some pid →
        World.findSingleEntry env fuel w pid t = .ok (none, w2) →
        (c.registry.map Prod.snd).find? (similarOnlyEntry env w t) = some s →
        ((w2.resolveEntry s).1).typeOf = some rt →
        ∃ r, convertValue t (w2.resolveEntry s).1 = .ok r ∧
          World.findSingleEntry env (fuel + 1) w cid t = .ok (r, (w2.resolveEntry s).2)) ∧
    (∀ s rt, (c.registry.map Prod.snd).filter (exactEntry env w t) = [] →
        c.parent = none →
        (c.registry.map Prod.snd).find? (similarOnlyEntry env w t) = some s →
        ((w.resolveEntry s).1).typeOf = some rt →
        ∃ r, convertValue t (w.resolveEntry s).1 = .ok r ∧
          World.findSingleEntry env (fuel + 1) w cid t = .ok (r, (w.resolveEntry s).2)) ∧
    (∀ pid w2, (c.registry.map Prod.snd).filter (exactEntry env w t) = [] →
        (c.registry.map Prod.snd).find? (similarOnlyEntry env w t) = none →
        c.parent = some pid →
        World.findSingleEntry env fuel w pid t = .ok (none, w2) →
        World.findSingleEntry env (fuel + 1) w cid t = .ok (none, w2)) ∧
    ((c.registry.map Prod.snd).filter (exactEntry env w t) = [] →
        (c.registry.map Prod.snd).find? (similarOnlyEntry env w t) = none →
        c.parent = none →
        World.findSingleEntry env (fuel + 1) w cid t = .ok (none, w)) := by
  have hok : ∀ (hx : (( c.registry.map Prod.snd).filter (exactEntry env w t)).length ≤ 1),
      scanIds env w t (c.registry.map Prod.snd) (.ok none none) =
        .ok ((c.registry.map Prod.snd).filter (exactEntry env w t)).head?
          ((c.registry.map Prod.snd).find? (similarOnlyEntry env w t)) := by
    intro hx
    exact scanIds_ok env w t (c.registry.map Prod.snd) none none hdef (by simpa using hx)
  refine ⟨?_, ?_, ?_, ?_, ?_, ?_, ?_, ?_⟩
  · rintro (h | h) <;> simp only [World.Resolve, hc, h]
  · intro e h
    simp only [World.Resolve, hc, h]
  · intro e h
    simp only [World.findSingleEntry, hc, hok (by simp [h]), h]
    rfl
  · intro pid v w2 h hpar hfind
    simp only [World.findSingleEntry, hc, hok (by simp [h]), h, hpar, hfind]
    rfl
  · intro pid w2 s rt h hpar hfind hsim htyped
    obtain ⟨r, hr⟩ := convertValue_isOk t (w2.resolveEntry s).1 rt htyped
    refine ⟨r, hr, ?_⟩
    simp only [World.findSingleEntry, hc, hok (by simp [h]), h, hpar, hfind, hsim,
      resolveAndConvert_true, hr]
    rfl
  · intro s rt h hpar hsim htyped
    obtain ⟨r, hr⟩ := convertValue_isOk t (w.resolveEntry s).1 rt htyped
    refine ⟨r, hr, ?_⟩
    simp only [World.findSingleEntry, hc, hok (by simp [h]), h, hpar, hsim,
      resolveAndConvert_true, hr]
    rfl
  · intro pid w2 h hsim hpar hfind
    simp only [World.findSingleEntry, hc, hok (by simp [h]), h, hsim, hpar, hfind]
    rfl
  · intro h hsim hpar
    simp only [World.findSingleEntry, hc, hok (by simp [h]), h, hsim, hpar]
    rfl

/-- Witness for the amended C1 on a concrete chain: the child holds only a
pointer-shaped similar candidate, the parent an exact value; resolution on
the child returns the exact value held by the parent rather than coercing
the local similar match. -/
theorem resolve_priority_for_typed_registries_witness :
    World.Resolve env0 chainWorld 1 (.base 0) =
      .ok (some (.bare (.base 0) 5), chainWorld) := by
  have h := resolve_priority_for_typed_registries env0 chainWorld 1
    ⟨[(1, 1)], [(.ptr (.base 0), [1])], some 0⟩ (.base 0) 1 rfl (by decide)
  have hd := h.1 (Or.inl rfl)
  have hp := h.2.2.2.1 0 (.bare (.base 0) 5) chainWorld rfl rfl rfl
  exact hd.trans hp

/-- C7: when the only candidate is a similar reference-shaped entry that
resolves to a typed nil pointer, the bare-value coercion yields no value and
Resolve reports a not-found miss instead of panicking or returning a
value. -/
theorem nil_reference_similar_coerces_to_miss
    (env : TypeEnv) (w : World) (cid : Nat) (c : Container) (t u : GoType) (s : Nat)
    (hc : w.containers[cid]? = some c)
    (hdef : ∀ eid ∈ c.registry.map Prod.snd, (w.entryTypeOf eid).isSome = true)
    (ht : t.isPtr = false)
    (hfast : lookupType c.typeRegistry t = none)
    (hexact : (c.registry.map Prod.snd).filter (exactEntry env w t) = [])
    (hsim : (c.registry.map Prod.snd).find? (similarOnlyEntry env w t) = some s)
    (hpar : c.parent = none)
    (hnil : (w.resolveEntry s).1 = .nilPtr u) :
    convertValue t (.nilPtr u) = .ok none ∧
      World.Resolve env w cid t = .ok (none, (w.resolveEntry s).2) := by
  have hcore : convertValue t (.nilPtr u) = .ok none := by
    have hne : ¬(GoType.ptr u = t) := fun he => by
      rw [← he] at ht
      simp [GoType.isPtr] at ht
    simp only [convertValue, GoValue.typeOf, if_neg hne, ht, Bool.false_and,
      Bool.not_false, Bool.true_and, Bool.and_false]
    simp only [GoType.isPtr, Bool.and_true, Bool.not_false, if_true]
    split
    next h => exact absurd h (by simp)
    next => split <;> rfl
  refine ⟨hcore, ?_⟩
  have hcid : cid < w.containers.length := by
    by_contra hlt
    rw [List.getElem?_eq_none (by omega)] at hc
    exact Option.noConfusion hc
  obtain ⟨k, hk⟩ : ∃ k, w.containers.length = k + 1 := ⟨w.containers.length - 1, by omega⟩
  have hok := scanIds_ok env w t (c.registry.map Prod.snd) none none hdef
    (by simp [hexact])
  simp only [World.Resolve, hc, hfast, hk, World.findSingleEntry, hok, hexact, hpar,
    hsim, resolveAndConvert_true, hnil, hcore, Except.map]
  rfl

/-- Witness for C7: a container holding only a provided typed nil pointer,
resolved at the bare element type, misses without an error. -/
theorem nil_reference_similar_coerces_to_miss_witness :
    convertValue (.base 0) (.nilPtr (.base 0)) = .ok none ∧
      World.Resolve env0 nilPtrWorld 0 (.base 0) = .ok (none, nilPtrWorld) :=
  nil_reference_similar_coerces_to_miss env0 nilPtrWorld 0
    ⟨[(0, 0)], [(.ptr (.base 0), [0])], none⟩ (.base 0) (.base 0) 0
    rfl (by decide) rfl rfl rfl rfl rfl rfl

/-- C2: with two (or more) entries registered under the same declared type
in one Registry, Resolve on that type panics with the ambiguous-registration
error naming the candidate count, while Get through each of the two distinct
handles still succeeds and returns the resolution of the entry of that handle. -/
theorem ambiguous_resolve_fails_but_get_succeeds
    (env : TypeEnv) (w : World) (cid : Nat) (c : Container) (t : GoType)
    (e1 e2 : Nat) (rest : List Nat) (tok1 tok2 eidA eidB : Nat)
    (hc : w.containers[cid]? = some c)
    (hlook : lookupType c.typeRegistry t = some (e1 :: e2 :: rest))
    (h1 : lookupTok c.registry tok1 = some eidA)
    (h2 : lookupTok c.registry tok2 = some eidB) :
    World.Resolve env w cid t = .error (multiRegMsg t (rest.length + 2)) ∧
      World.Get w cid tok1 = .ok (w.resolveEntry eidA) ∧
      World.Get w cid tok2 = .ok (w.resolveEntry eidB) := by
  have hcid : cid < w.containers.length := by
    by_contra hlt
    rw [List.getElem?_eq_none (by omega)] at hc
    exact Option.noConfusion hc
  obtain ⟨k, hk⟩ : ∃ k, w.containers.length = k + 1 := ⟨w.containers.length - 1, by omega⟩
  refine ⟨?_, ?_, ?_⟩
  · simp only [World.Resolve, hc, hlook, List.length_cons]
  · simp only [World.Get, World.getEntry, hk, World.getEntryAux, hc, h1]
  · simp only [World.Get, World.getEntry, hk, World.getEntryAux, hc, h2]

/-- Witness for C2: two Provide calls with the same type in one root
container; Resolve(T0) reports two ambiguous registrations, while Get via
each synthesised handle returns the respective value. -/
theorem ambiguous_resolve_fails_but_get_succeeds_witness :
    World.Resolve env0 (twoProvideWorld 1 2) 0 (.base 0) =
        .error (multiRegMsg (.base 0) 2) ∧
      World.Get (twoProvideWorld 1 2) 0 0 = .ok (.bare (.base 0) 1, twoProvideWorld 1 2) ∧
      World.Get (twoProvideWorld 1 2) 0 1 = .ok (.bare (.base 0) 2, twoProvideWorld 1 2) := by
  have h := ambiguous_resolve_fails_but_get_succeeds env0 (twoProvideWorld 1 2) 0
    ⟨[(0, 0), (1, 1)], [(.base 0, [0, 1])], none⟩ (.base 0) 0 1 [] 0 1 0 1
    rfl rfl rfl rfl
  exact ⟨h.1, h.2.1, h.2.2⟩

/-- Parent links point to earlier heap addresses; every world built with
New / NewScoped satisfies this, since NewScoped fixes the parent to an
already-allocated container. -/
def ParentsWF (w : World) : Prop :=
  ∀ (i : Nat) (c : Container), w.containers[i]? = some c →
    ∀ (p : Nat), c.parent = some p → p < i

/-- The chain walk of getEntry is independent of the fuel once the fuel exceeds
the start address (parents strictly decrease). -/
theorem getEntryAux_fuel (w : World) (hwf : ParentsWF w) :
    ∀ q fuel1 fuel2 tok, q < fuel1 → q < fuel2 →
      w.getEntryAux fuel1 q tok = w.getEntryAux fuel2 q tok := by
  intro q
  induction q using Nat.strong_induction_on with
  | _ q ih =>
    intro fuel1 fuel2 tok hq1 hq2
    obtain ⟨f1, rfl⟩ : ∃ f, fuel1 = f + 1 := ⟨fuel1 - 1, by omega⟩
    obtain ⟨f2, rfl⟩ : ∃ f, fuel2 = f + 1 := ⟨fuel2 - 1, by omega⟩
    simp only [World.getEntryAux]
    cases hcq : w.containers[q]? with
    | none => rfl
    | some c =>
      cases hl : lookupTok c.registry tok with
      | some eid => simp only [hl]
      | none =>
        simp only [hl]
        cases hp : c.parent with
        | none => rfl
        | some p =>
          have hpq : p < q := hwf q c hcq p hp
          exact ih p hpq f1 f2 tok (by omega) (by omega)

/-- findSingleEntry is likewise fuel-independent above the start address. -/
theorem findSingleEntry_fuel (env : TypeEnv) (w : World) (hwf : ParentsWF w) :
    ∀ q fuel1 fuel2 t, q < fuel1 → q < fuel2 →
      World.findSingleEntry env fuel1 w q t = World.findSingleEntry env fuel2 w q t := by
  intro q
  induction q using Nat.strong_induction_on with
  | _ q ih =>
    intro fuel1 fuel2 t hq1 hq2
    obtain ⟨f1, rfl⟩ : ∃ f, fuel1 = f + 1 := ⟨fuel1 - 1, by omega⟩
    obtain ⟨f2, rfl⟩ : ∃ f, fuel2 = f + 1 := ⟨fuel2 - 1, by omega⟩
    simp only [World.findSingleEntry]
    cases hcq : w.containers[q]? with
    | none => rfl
    | some c =>
      cases hs : scanIds env w t (c.registry.map Prod.snd) (.ok none none) with
      | panicked m => simp only [hs]
      | ok ex sim =>
        simp only [hs]
        cases ex with
        | some eid => rfl
        | none =>
          cases hp : c.parent with
          | none => rfl
          | some p =>
            have hpq : p < q := hwf q c hcq p hp
            have heq := ih p hpq f1 f2 t (by omega) (by omega)
            simp only [heq]

/-- Clear leaves every other container untouched. -/
theorem Clear_containers_other (w : World) (cid q : Nat) (hq : q ≠ cid) :
    (w.Clear cid).containers[q]? = w.containers[q]? := by
  unfold World.Clear World.updateContainer
  cases hc : w.containers[cid]? with
  | none => rfl
  | some c => exact List.getElem?_set_ne (fun he => hq he.symm)

/-- Clear leaves the entry heap untouched. -/
theorem Clear_entries (w : World) (cid : Nat) : (w.Clear cid).entries = w.entries := by
  unfold World.Clear World.updateContainer
  cases hc : w.containers[cid]? <;> rfl

/-- Clear preserves the container count. -/
theorem Clear_length (w : World) (cid : Nat) :
    (w.Clear cid).containers.length = w.containers.length := by
  unfold World.Clear World.updateContainer
  cases hc : w.containers[cid]? with
  | none => rfl
  | some c => simp [List.length_set]

/-- Clear empties exactly the two maps of the cleared container, keeping its
parent pointer. -/
theorem Clear_containers_cid (w : World) (cid : Nat) (c : Container)
    (hc : w.containers[cid]? = some c) :
    (w.Clear cid).containers[cid]? = some ⟨[], [], c.parent⟩ := by
  have hcid : cid < w.containers.length := by
    by_contra hlt
    rw [List.getElem?_eq_none (by omega)] at hc
    exact Option.noConfusion hc
  unfold World.Clear World.updateContainer
  rw [hc]
  exact List.getElem?_set_self hcid

/-- Clear preserves the parent well-formedness of the heap. -/
theorem Clear_parentsWF (w : World) (cid : Nat) (hwf : ParentsWF w) :
    ParentsWF (w.Clear cid) := by
  intro i ci hci p hp
  by_cases hicid : i = cid
  · subst hicid
    cases hc : w.containers[i]? with
    | none =>
      have hid : (w.Clear i).containers[i]? = none := by
        unfold World.Clear World.updateContainer
        simp [hc]
      rw [hid] at hci
      exact Option.noConfusion hci
    | some c =>
      rw [Clear_containers_cid w i c hc] at hci
      cases hci
      exact hwf i c hc p hp
  · rw [Clear_containers_other w cid i hicid] at hci
    exact hwf i ci hci p hp

/-- Clear commutes with an entry-heap update. -/
theorem Clear_withEntries (w : World) (cid : Nat) (es : List Entry) :
    (⟨es, (w.Clear cid).containers, (w.Clear cid).tokens⟩ : World) =
      World.Clear ⟨es, w.containers, w.tokens⟩ cid := by
  unfold World.Clear World.updateContainer
  cases hc : w.containers[cid]? <;> rfl

/-- Resolving an entry in the cleared world resolves the same entry and
clears afterwards. -/
theorem resolveEntry_clear (w : World) (cid eid : Nat) :
    (w.Clear cid).resolveEntry eid =
      ((w.resolveEntry eid).1, ((w.resolveEntry eid).2).Clear cid) := by
  unfold World.resolveEntry
  rw [Clear_entries]
  cases he : w.entries[eid]? with
  | none => rfl
  | some e => simp only [Clear_withEntries]

/-- The scan only reads entry types, which Clear does not touch. -/
theorem scanIds_clear (env : TypeEnv) (w : World) (cid : Nat) (t : GoType) :
    ∀ ids acc, scanIds env (w.Clear cid) t ids acc = scanIds env w t ids acc := by
  have hty : ∀ eid, (w.Clear cid).entryTypeOf eid = w.entryTypeOf eid := by
    intro eid
    unfold World.entryTypeOf
    rw [Clear_entries]
  intro ids
  induction ids with
  | nil => intro acc; rfl
  | cons e rest ih =>
    intro acc
    simp only [scanIds, scanStep, hty, ih]

/-- resolveAndConvert in the cleared world equals resolveAndConvert before
the clear, with the clear re-applied to the resulting heap (and the same
panic propagated). -/
theorem resolveAndConvert_clear (w : World) (cid : Nat) (t : GoType) (eid : Nat) (b : Bool) :
    (w.Clear cid).resolveAndConvert t eid b =
      Except.map (fun pr => (pr.1, pr.2.Clear cid)) (w.resolveAndConvert t eid b) := by
  unfold World.resolveAndConvert
  rw [resolveEntry_clear]
  cases b with
  | false => simp [Except.map]
  | true =>
    cases h : convertValue t (w.resolveEntry eid).1 <;> simp [h, Except.map]

/-- findSingleEntry started strictly below the cleared address never visits
the cleared container: it returns the same value as in the original world,
with the clear re-applied to the resulting heap. -/
theorem findSingleEntry_clear (env : TypeEnv) (w : World) (cid : Nat) (hwf : ParentsWF w) :
    ∀ fuel q t, q < cid →
      World.findSingleEntry env fuel (w.Clear cid) q t =
        Except.map (fun pr => (pr.1, World.Clear pr.2 cid))
          (World.findSingleEntry env fuel w q t) := by
  intro fuel
  induction fuel with
  | zero => intro q t hq; rfl
  | succ f ih =>
    intro q t hq
    simp only [World.findSingleEntry]
    rw [Clear_containers_other w cid q (by omega)]
    cases hcq : w.containers[q]? with
    | none => rfl
    | some c =>
      simp only [scanIds_clear]
      cases hs : scanIds env w t (c.registry.map Prod.snd) (.ok none none) with
      | panicked m => simp only [hs]; rfl
      | ok ex sim =>
        simp only [hs]
        cases ex with
        | some eid => simp only [resolveEntry_clear]; rfl
        | none =>
          cases hp : c.parent with
          | none =>
            cases sim with
            | some s => simp only [resolveAndConvert_clear]
            | none => rfl
          | some p =>
            have hpq : p < q := hwf q c hcq p hp
            have heq := ih p t (by omega)
            simp only [heq]
            cases hr : World.findSingleEntry env f w p t with
            | error m => rfl
            | ok pr =>
              obtain ⟨v, w2⟩ := pr
              cases v with
              | some v0 => rfl
              | none =>
                cases sim with
                | some s => simp only [Except.map, resolveAndConvert_clear]
                | none => rfl

/-- The handle-chain walk started strictly below the cleared address never
visits the cleared container. -/
theorem getEntryAux_clear (w : World) (cid : Nat) (hwf : ParentsWF w) :
    ∀ fuel q tok, q < cid →
      (w.Clear cid).getEntryAux fuel q tok = w.getEntryAux fuel q tok := by
  intro fuel
  induction fuel with
  | zero => intro q tok hq; rfl
  | succ f ih =>
    intro q tok hq
    simp only [World.getEntryAux]
    rw [Clear_containers_other w cid q (by omega)]
    cases hcq : w.containers[q]? with
    | none => rfl
    | some c =>
      cases hl : lookupTok c.registry tok with
      | some eid => simp only [hl]
      | none =>
        simp only [hl]
        cases hp : c.parent with
        | none => rfl
        | some p =>
          have hpq : p < q := hwf q c hcq p hp
          exact ih p tok (by omega)

/-- C9: Clear on a scoped Registry empties only its own maps: every other
container and the whole entry heap are unchanged, handle lookups through the
cleared Registry now walk straight into the parent chain of the pre-clear
world, and by-type resolution through the cleared Registry returns exactly
the pre-clear parent-chain search result (with the clear re-applied to the
resulting heap). -/
theorem clear_scoped_removes_only_own_entries
    (env : TypeEnv) (w : World) (cid pid : Nat) (c : Container)
    (hwf : ParentsWF w)
    (hc : w.containers[cid]? = some c)
    (hpar : c.parent = some pid) :
    (∀ q, q ≠ cid → (w.Clear cid).containers[q]? = w.containers[q]?) ∧
      (w.Clear cid).entries = w.entries ∧
      (∀ tok, (w.Clear cid).getEntry cid tok = w.getEntry pid tok) ∧
      (∀ t, World.Resolve env (w.Clear cid) cid t =
          Except.map (fun pr => (pr.1, World.Clear pr.2 cid))
            (World.findSingleEntry env w.containers.length w pid t)) := by
  have hcid : cid < w.containers.length := by
    by_contra hlt
    rw [List.getElem?_eq_none (by omega)] at hc
    exact Option.noConfusion hc
  have hpid : pid < cid := hwf cid c hc pid hpar
  obtain ⟨k, hk⟩ : ∃ k, w.containers.length = k + 1 := ⟨w.containers.length - 1, by omega⟩
  have hclen : (w.Clear cid).containers.length = w.containers.length := Clear_length w cid
  have hccid := Clear_containers_cid w cid c hc
  refine ⟨fun q hq => Clear_containers_other w cid q hq, Clear_entries w cid, ?_, ?_⟩
  · intro tok
    unfold World.getEntry
    rw [hclen, hk]
    simp only [World.getEntryAux, hccid, hpar, lookupTok]
    rw [getEntryAux_clear w cid hwf k pid tok hpid]
    exact getEntryAux_fuel w hwf pid k (k + 1) tok (by omega) (by omega)
  · intro t
    have hcl := findSingleEntry_clear env w cid hwf k pid t hpid
    have hfu := findSingleEntry_fuel env w hwf pid k (k + 1) t (by omega) (by omega)
    rw [hk, ← hfu, ← hcl]
    simp only [World.Resolve, hccid, lookupType, hclen, hk, World.findSingleEntry,
      hpar, scanIds, List.map_nil]
    cases hY : World.findSingleEntry env k (w.Clear cid) pid t with
    | error m => rfl
    | ok pr =>
      obtain ⟨v, w2⟩ := pr
      cases v <;> rfl

/-- Witness for C9 on the concrete parent/child chain: after clearing the
child, handle lookup through the child equals the lookup in the parent, and by-type
resolution through the child is the parent-chain search of the pre-clear
world. -/
theorem clear_scoped_removes_only_own_entries_witness :
    (chainWorld.Clear 1).getEntry 1 0 = chainWorld.getEntry 0 0 ∧
      World.Resolve env0 (chainWorld.Clear 1) 1 (.base 0) =
        Except.map (fun pr => (pr.1, World.Clear pr.2 1))
          (World.findSingleEntry env0 2 chainWorld 0 (.base 0)) := by
  have hwf : ParentsWF chainWorld := by
    intro i c hci p hp
    match i with
    | 0 =>
      rw [show chainWorld.containers[0]? =
        some ⟨[(0, 0)], [(.base 0, [0])], none⟩ from rfl] at hci
      cases hci
      exact Option.noConfusion hp
    | 1 =>
      rw [show chainWorld.containers[1]? =
        some ⟨[(1, 1)], [(.ptr (.base 0), [1])], some 0⟩ from rfl] at hci
      cases hci
      cases hp
      omega
    | n + 2 =>
      have hlen : chainWorld.containers.length = 2 := rfl
      rw [List.getElem?_eq_none (by rw [hlen]; omega)] at hci
      exact Option.noConfusion hci
  have h := clear_scoped_removes_only_own_entries env0 chainWorld 1 0
    ⟨[(1, 1)], [(.ptr (.base 0), [1])], some 0⟩ hwf rfl rfl
  exact ⟨h.2.2.1 0, h.2.2.2 (.base 0)⟩

/-- C6: Inject on a pointer to a struct with a *Database field, over a
Registry holding a bare Database value registered under the bare type,
succeeds: the field is populated through the similar-match coercion to
pointer shape with a pointer to the provided value (the value, unboxed from
the `any` of the registry, is not addressable, so the fresh-slot branch of the source
produces the pointer). -/
theorem inject_pointer_field_from_bare_value (d : Nat) :
    World.Inject injectEnv 8 (injectWorld d) 0 (.ptr (.base 1)) =
      .ok (.structV 1 [("DB", .ptrTo (.base 0) d)], injectWorld d) := by
  rfl

/-- Witness for C6 at a concrete payload. -/
theorem inject_pointer_field_from_bare_value_witness :
    World.Inject injectEnv 8 (injectWorld 42) 0 (.ptr (.base 1)) =
      .ok (.structV 1 [("DB", .ptrTo (.base 0) 42)], injectWorld 42) :=
  inject_pointer_field_from_bare_value 42

/-- C10: token handles are compared by object identity, not by key string:
NewToken with an explicit name allocates a fresh token object carrying that
key; two such tokens with the same name are distinct registry keys, so after
binding an entry under the first, Get with the first succeeds with the bound
value while Get with the second panics not-found and Find with it reports
false. -/
theorem token_identity_not_key_string
    (name : String) (tv : GoValue) (ty : Option GoType) (hname : name ≠ "") :
    rootWorld.NewToken (some name) ty = .ok (rootWorld.newTokenRaw name) ∧
      (tokenPairWorld name tv ty).tokens[0]? = some name ∧
      (tokenPairWorld name tv ty).tokens[1]? = some name ∧
      World.Get (tokenPairWorld name tv ty) 0 0 = .ok (tv, tokenPairWorld name tv ty) ∧
      World.Get (tokenPairWorld name tv ty) 0 1 =
        .error ("dependency not found: " ++ name) ∧
      (World.Find (tokenPairWorld name tv ty) 0 1).1 = none := by
  refine ⟨?_, rfl, rfl, rfl, rfl, rfl⟩
  simp [World.NewToken, tokenKeyOf, hname]

/-- Witness for C10 with a concrete name and value. -/
theorem token_identity_not_key_string_witness :
    rootWorld.NewToken (some "nm") none = .ok (rootWorld.newTokenRaw "nm") ∧
      (tokenPairWorld "nm" (.bare (.base 2) 9) none).tokens[0]? = some "nm" ∧
      (tokenPairWorld "nm" (.bare (.base 2) 9) none).tokens[1]? = some "nm" ∧
      World.Get (tokenPairWorld "nm" (.bare (.base 2) 9) none) 0 0 =
        .ok (.bare (.base 2) 9, tokenPairWorld "nm" (.bare (.base 2) 9) none) ∧
      World.Get (tokenPairWorld "nm" (.bare (.base 2) 9) none) 0 1 =
        .error ("dependency not found: " ++ "nm") ∧
      (World.Find (tokenPairWorld "nm" (.bare (.base 2) 9) none) 0 1).1 = none :=
  token_identity_not_key_string "nm" (.bare (.base 2) 9) none (by decide)

/-- A fresh key is found by the map write that inserted it. -/
theorem lookupTok_tokPut_fresh :
    ∀ (reg : List (Nat × Nat)) (k eid : Nat), (∀ p ∈ reg, p.1 ≠ k) →
      lookupTok (tokPut reg k eid) k = some eid
  | [], k, eid, _ => by simp [tokPut, lookupTok]
  | (k0, v0) :: rest, k, eid, hfresh => by
    have h0 : k0 ≠ k := hfresh (k0, v0) (by simp)
    simp only [tokPut, if_neg h0, lookupTok, if_neg h0]
    exact lookupTok_tokPut_fresh rest k eid (fun p hp => hfresh p (by simp [hp]))

/-- The type-index append adds the entry at the end of the list of the requested
type. -/
theorem lookupType_typePut_self :
    ∀ (m : List (GoType × List Nat)) (t : GoType) (eid : Nat),
      (lookupType (typePut m t eid) t).getD [] =
        (lookupType m t).getD [] ++ [eid]
  | [], t, eid => by simp [typePut, lookupType]
  | (u, l) :: rest, t, eid => by
    by_cases hu : u = t
    · subst hu
      simp [typePut, lookupType]
    · simp only [typePut, if_neg hu, lookupType, if_neg hu]
      exact lookupType_typePut_self rest t eid

/-- The type-index append leaves the list of every other type untouched. -/
theorem lookupType_typePut_other :
    ∀ (m : List (GoType × List Nat)) (t : GoType) (eid : Nat) (u : GoType), u ≠ t →
      lookupType (typePut m t eid) u = lookupType m u
  | [], t, eid, u, hu => by simp [typePut, lookupType, Ne.symm hu]
  | (u0, l) :: rest, t, eid, u, hu => by
    by_cases h0 : u0 = t
    · have h2 : ¬(u0 = u) := fun h => hu (h.symm.trans h0)
      simp only [typePut, if_pos h0, lookupType, if_neg h2]
    · simp only [typePut, if_neg h0, lookupType]
      by_cases h2 : u0 = u
      · simp [h2]
      · simp only [if_neg h2]
        exact lookupType_typePut_other rest t eid u hu

/-- C8: ProvideValue on a null/untyped value is rejected with the
invalid-registration panic before any map is touched (the error in the model
carries no mutated heap); on a typed value it allocates a Singleton value
entry whose declared type is the runtime type of the value, keys it under a
freshly synthesised handle derived from that type, and appends it to the
type index under that type, leaving the index of every other type untouched. -/
theorem provide_value_nil_fails_else_registers
    (w : World) (cid : Nat) (c : Container) (v : GoValue)
    (hc : w.containers[cid]? = some c)
    (htok : ∀ p ∈ c.registry, p.1 < w.tokens.length) :
    (v.typeOf = none → w.Provide cid v = .error ("Provide: cannot register nil value")) ∧
      (∀ t, v.typeOf = some t →
        ∃ w2, w.Provide cid v = .ok w2 ∧
          w2.entries[w.entries.length]? = some ⟨v, none, some t, .Singleton, false, 0⟩ ∧
          w2.tokens[w.tokens.length]? = some (providedKey t) ∧
          ∃ c2, w2.containers[cid]? = some c2 ∧
            lookupTok c2.registry w.tokens.length = some w.entries.length ∧
            (lookupType c2.typeRegistry t).getD [] =
              (lookupType c.typeRegistry t).getD [] ++ [w.entries.length] ∧
            (∀ u, u ≠ t → lookupType c2.typeRegistry u = lookupType c.typeRegistry u)) := by
  have hcid : cid < w.containers.length := by
    by_contra hlt
    rw [List.getElem?_eq_none (by omega)] at hc
    exact Option.noConfusion hc
  refine ⟨fun hnil => by simp [World.Provide, hnil], ?_⟩
  intro t ht
  refine ⟨⟨w.entries ++ [⟨v, none, some t, .Singleton, false, 0⟩],
      w.containers.set cid ⟨tokPut c.registry w.tokens.length w.entries.length,
        typePut c.typeRegistry t w.entries.length, c.parent⟩,
      w.tokens ++ [providedKey t]⟩,
    by simp [World.Provide, ht, World.newTokenRaw, World.addEntry,
      World.updateContainer, hc], ?_, ?_, ?_⟩
  · exact List.getElem?_concat_length w.entries _
  · exact List.getElem?_concat_length w.tokens _
  · refine ⟨_, List.getElem?_set_self hcid, ?_, ?_, ?_⟩
    · exact lookupTok_tokPut_fresh c.registry w.tokens.length w.entries.length
        (fun p hp => by have := htok p hp; omega)
    · exact lookupType_typePut_self c.typeRegistry t w.entries.length
    · exact fun u hu => lookupType_typePut_other c.typeRegistry t w.entries.length u hu

/-- Witness for C8: the nil rejection and a concrete typed provision on a
fresh root container. -/
theorem provide_value_nil_fails_else_registers_witness :
    (rootWorld.Provide 0 .nilv = .error ("Provide: cannot register nil value")) ∧
      (∃ w2, rootWorld.Provide 0 (.bare (.base 0) 3) = .ok w2 ∧
        w2.entries[rootWorld.entries.length]? =
          some ⟨.bare (.base 0) 3, none, some (.base 0), .Singleton, false, 0⟩ ∧
        w2.tokens[rootWorld.tokens.length]? = some (providedKey (.base 0)) ∧
        ∃ c2, w2.containers[0]? = some c2 ∧
          lookupTok c2.registry rootWorld.tokens.length = some rootWorld.entries.length ∧
          (lookupType c2.typeRegistry (.base 0)).getD [] =
            (lookupType (Container.mk [] [] none).typeRegistry (.base 0)).getD []
              ++ [rootWorld.entries.length] ∧
          (∀ u, u ≠ (.base 0) →
            lookupType c2.typeRegistry u =
              lookupType (Container.mk [] [] none).typeRegistry u)) := by
  have h1 := provide_value_nil_fails_else_registers rootWorld 0 ⟨[], [], none⟩ .nilv
    rfl (by simp)
  have h2 := provide_value_nil_fails_else_registers rootWorld 0 ⟨[], [], none⟩
    (.bare (.base 0) 3) rfl (by simp)
  exact ⟨h1.1 rfl, h2.2 (.base 0) rfl⟩

/-- C5 counterexample: a token-based Bind whose element type is an
interface (reflect.TypeOf of the zero value is nil) produces an entry that
is reachable from the handle registry but is indexed under no type, and
whose declared type is never set — refuting the claimed invariant for
interface element types. -/
theorem interface_bind_breaks_type_index_invariant :
    (∃ c, ifaceBindWorld.containers[0]? = some c ∧
        lookupTok c.registry 0 = some 0 ∧ c.typeRegistry = []) ∧
      (ifaceBindWorld.entries[0]?).map Entry.depType = some none :=
  ⟨⟨⟨[(0, 0)], [], none⟩, rfl, rfl, rfl⟩, rfl⟩

/-- Membership in a Go-map write: a pair of the written map is either the
written binding or an old binding. -/
theorem mem_tokPut :
    ∀ (reg : List (Nat × Nat)) (k v : Nat) (p : Nat × Nat),
      p ∈ tokPut reg k v → p = (k, v) ∨ p ∈ reg
  | [], k, v, p, hp => by
    simp [tokPut] at hp
    exact Or.inl hp
  | (k0, v0) :: rest, k, v, p, hp => by
    by_cases h0 : k0 = k
    · rw [tokPut, if_pos h0] at hp
      rcases List.mem_cons.mp hp with h | h
      · exact Or.inl h
      · exact Or.inr (List.mem_cons_of_mem _ h)
    · rw [tokPut, if_neg h0] at hp
      rcases List.mem_cons.mp hp with h | h
      · exact Or.inr (by simp [h])
      · rcases mem_tokPut rest k v p h with h2 | h2
        · exact Or.inl h2
        · exact Or.inr (List.mem_cons_of_mem _ h2)

/-- updateContainer only rewrites the container list. -/
theorem updateContainer_entries (w : World) (cid : Nat) (f : Container → Container) :
    (w.updateContainer cid f).entries = w.entries := by
  unfold World.updateContainer
  cases w.containers[cid]? <;> rfl

/-- One map-level insertion (a fresh entry appended to the heap, keyed in
the registry and appended to the type index under its declared type)
preserves the registry/type-index coherence invariant. -/
theorem RegInv_insert (w : World) (tks : List String) (cid tok : Nat) (e : Entry)
    (t : GoType) (hdep : e.depType = some t) (hinv : RegInv w cid) :
    RegInv (World.updateContainer ⟨w.entries ++ [e], w.containers, tks⟩ cid
      (fun c => ⟨tokPut c.registry tok w.entries.length,
        typePut c.typeRegistry t w.entries.length, c.parent⟩)) cid := by
  intro c2 hc2 tok2 eid2 hmem
  cases hc : w.containers[cid]? with
  | none =>
    rw [show (World.updateContainer ⟨w.entries ++ [e], w.containers, tks⟩ cid
        (fun c => ⟨tokPut c.registry tok w.entries.length,
          typePut c.typeRegistry t w.entries.length, c.parent⟩)).containers[cid]? = none
      from by unfold World.updateContainer; simp [hc]] at hc2
    exact Option.noConfusion hc2
  | some c =>
    have hcid : cid < w.containers.length := by
      by_contra hlt
      rw [List.getElem?_eq_none (by omega)] at hc
      exact Option.noConfusion hc
    rw [show (World.updateContainer ⟨w.entries ++ [e], w.containers, tks⟩ cid
        (fun c => ⟨tokPut c.registry tok w.entries.length,
          typePut c.typeRegistry t w.entries.length, c.parent⟩)).containers[cid]? =
        some ⟨tokPut c.registry tok w.entries.length,
          typePut c.typeRegistry t w.entries.length, c.parent⟩
      from by unfold World.updateContainer; rw [hc]; exact List.getElem?_set_self hcid] at hc2
    cases hc2
    rcases mem_tokPut c.registry tok w.entries.length (tok2, eid2) hmem with hnew | hold
    · cases hnew
      refine ⟨t, ?_, ?_⟩
      · unfold World.entryTypeOf
        rw [updateContainer_entries]
        rw [show (⟨w.entries ++ [e], w.containers, tks⟩ : World).entries
            = w.entries ++ [e] from rfl]
        rw [List.getElem?_concat_length]
        exact hdep
      · rw [lookupType_typePut_self]
        exact List.mem_append_right _ (by simp)
    · obtain ⟨t2, ht2, hmem2⟩ := hinv c hc tok2 eid2 hold
      have heid2 : eid2 < w.entries.length := by
        unfold World.entryTypeOf at ht2
        by_contra hlt
        rw [List.getElem?_eq_none (by omega)] at ht2
        exact Option.noConfusion ht2
      refine ⟨t2, ?_, ?_⟩
      · unfold World.entryTypeOf at ht2 ⊢
        rw [updateContainer_entries]
        rw [show (⟨w.entries ++ [e], w.containers, tks⟩ : World).entries
            = w.entries ++ [e] from rfl]
        rw [List.getElem?_append_left heid2]
        exact ht2
      · by_cases h2 : t2 = t
        · subst h2
          rw [lookupType_typePut_self]
          exact List.mem_append_left _ hmem2
        · rw [lookupType_typePut_other c.typeRegistry t w.entries.length t2 h2]
          exact hmem2

/-- Type-index effect of one map-level insertion: the list of the requested type
is extended on the right (by the new entry under its declared type), never
reordered. -/
theorem typeListAt_insert (w : World) (tks : List String) (cid tok : Nat) (e : Entry)
    (t u : GoType) :
    ∃ tail, typeListAt (World.updateContainer ⟨w.entries ++ [e], w.containers, tks⟩ cid
        (fun c => ⟨tokPut c.registry tok w.entries.length,
          typePut c.typeRegistry t w.entries.length, c.parent⟩)) cid u =
      typeListAt w cid u ++ tail := by
  cases hc : w.containers[cid]? with
  | none =>
    refine ⟨[], ?_⟩
    unfold typeListAt World.updateContainer
    simp [hc]
  | some c =>
    have hcid : cid < w.containers.length := by
      by_contra hlt
      rw [List.getElem?_eq_none (by omega)] at hc
      exact Option.noConfusion hc
    have hget : (World.updateContainer ⟨w.entries ++ [e], w.containers, tks⟩ cid
        (fun c => ⟨tokPut c.registry tok w.entries.length,
          typePut c.typeRegistry t w.entries.length, c.parent⟩)).containers[cid]? =
        some ⟨tokPut c.registry tok w.entries.length,
          typePut c.typeRegistry t w.entries.length, c.parent⟩ := by
      unfold World.updateContainer
      rw [hc]
      exact List.getElem?_set_self hcid
    by_cases hu : u = t
    · subst hu
      refine ⟨[w.entries.length], ?_⟩
      unfold typeListAt
      rw [hget, hc]
      exact lookupType_typePut_self c.typeRegistry u w.entries.length
    · refine ⟨[], ?_⟩
      unfold typeListAt
      rw [hget, hc]
      show (lookupType (typePut c.typeRegistry t w.entries.length) u).getD [] =
        (lookupType c.typeRegistry u).getD [] ++ []
      rw [lookupType_typePut_other c.typeRegistry t w.entries.length u hu]
      simp

/-- Type-index effect of registerTo: append-only as well (no effect at all
for an interface element type). -/
theorem typeListAt_registerTo (r : Registration) (w : World) (cid : Nat) (u : GoType) :
    ∃ tail, typeListAt (r.registerTo w cid) cid u = typeListAt w cid u ++ tail := by
  cases hrt : r.typ with
  | some t =>
    have h := typeListAt_insert w w.tokens cid r.token
      ⟨(match r.factory with | some _ => .nilv | none => r.value),
        r.factory, r.typ, r.lifecycle, false, 0⟩ t u
    obtain ⟨tail, htail⟩ := h
    refine ⟨tail, ?_⟩
    rw [show r.registerTo w cid =
        World.updateContainer ⟨w.entries ++
            [⟨(match r.factory with | some _ => .nilv | none => r.value),
              r.factory, r.typ, r.lifecycle, false, 0⟩], w.containers, w.tokens⟩ cid
          (fun c => ⟨tokPut c.registry r.token w.entries.length,
            typePut c.typeRegistry t w.entries.length, c.parent⟩)
      from by unfold Registration.registerTo World.addEntry; rw [hrt]]
    exact htail
  | none =>
    rw [show r.registerTo w cid =
        World.updateContainer ⟨w.entries ++
            [⟨(match r.factory with | some _ => .nilv | none => r.value),
              r.factory, r.typ, r.lifecycle, false, 0⟩], w.containers, w.tokens⟩ cid
          (fun c => ⟨tokPut c.registry r.token w.entries.length, c.typeRegistry, c.parent⟩)
      from by unfold Registration.registerTo World.addEntry; rw [hrt]]
    cases hc : w.containers[cid]? with
    | none =>
      refine ⟨[], ?_⟩
      unfold typeListAt World.updateContainer
      simp [hc]
    | some c =>
      have hcid : cid < w.containers.length := by
        by_contra hlt
        rw [List.getElem?_eq_none (by omega)] at hc
        exact Option.noConfusion hc
      have hget : (World.updateContainer ⟨w.entries ++
            [⟨(match r.factory with | some _ => .nilv | none => r.value),
              r.factory, r.typ, r.lifecycle, false, 0⟩], w.containers, w.tokens⟩ cid
          (fun c => ⟨tokPut c.registry r.token w.entries.length, c.typeRegistry,
            c.parent⟩)).containers[cid]? =
          some ⟨tokPut c.registry r.token w.entries.length, c.typeRegistry, c.parent⟩ := by
        unfold World.updateContainer
        simp only [hc]
        exact List.getElem?_set_self hcid
      refine ⟨[], ?_⟩
      unfold typeListAt
      rw [hget, hc]
      show (lookupType c.typeRegistry u).getD [] = (lookupType c.typeRegistry u).getD [] ++ []
      simp

/-- registerTo only appends to the entry heap: existing entries keep their
addresses and contents. -/
theorem entries_registerTo (r : Registration) (w : World) (cid eid : Nat) (e : Entry)
    (he : w.entries[eid]? = some e) :
    (r.registerTo w cid).entries[eid]? = some e := by
  have hlt : eid < w.entries.length := by
    by_contra hlt
    rw [List.getElem?_eq_none (by omega)] at he
    exact Option.noConfusion he
  unfold Registration.registerTo World.addEntry
  rw [updateContainer_entries]
  show (w.entries ++
      [⟨(match r.factory with | some _ => .nilv | none => r.value),
        r.factory, r.typ, r.lifecycle, false, 0⟩])[eid]? = some e
  rw [List.getElem?_append_left hlt]
  exact he

/-- Every registration operation only appends to the entry heap. -/
theorem entries_applyOp (w : World) (cid : Nat) (op : RegOp) (eid : Nat) (e : Entry)
    (he : w.entries[eid]? = some e) :
    (applyOp w cid op).entries[eid]? = some e := by
  have hlt : eid < w.entries.length := by
    by_contra hlt
    rw [List.getElem?_eq_none (by omega)] at he
    exact Option.noConfusion he
  cases op with
  | provideV v =>
    cases hv : v.typeOf with
    | none => simpa [applyOp, World.Provide, hv] using he
    | some t =>
      simp only [applyOp, World.Provide, hv]
      rw [updateContainer_entries]
      show (w.entries ++ [⟨v, none, some t, .Singleton, false, 0⟩])[eid]? = some e
      rw [List.getElem?_append_left hlt]
      exact he
  | provideF rt f lc =>
    show ((w.provideFactoryWithLifecycle cid rt f lc)).entries[eid]? = some e
    unfold World.provideFactoryWithLifecycle
    rw [updateContainer_entries]
    show (w.entries ++ [⟨.nilv, some f, some rt, lc, false, 0⟩])[eid]? = some e
    rw [List.getElem?_append_left hlt]
    exact he
  | registerB regs =>
    show (World.Register w cid regs).entries[eid]? = some e
    clear hlt
    induction regs generalizing w with
    | nil => exact he
    | cons r rest ih =>
      show (World.Register (r.registerTo w cid) cid rest).entries[eid]? = some e
      exact ih (r.registerTo w cid) (entries_registerTo r w cid eid e he)

/-- entry.resolve never changes the declared type. -/
theorem resolve_preserves_depType (e : Entry) :
    (Entry.resolve e).2.depType = e.depType := by
  obtain ⟨v, f, d, lc, b, k⟩ := e
  cases f <;> cases lc <;> cases b <;> rfl

/-- One registration operation of the typed class preserves the coherence
invariant. -/
theorem RegInv_applyOp (w : World) (cid : Nat) (op : RegOp) (hok : opOK op)
    (hinv : RegInv w cid) : RegInv (applyOp w cid op) cid := by
  cases op with
  | provideV v =>
    cases hv : v.typeOf with
    | none => simpa [applyOp, World.Provide, hv] using hinv
    | some t =>
      have h := RegInv_insert w (w.tokens ++ [providedKey t]) cid w.tokens.length
        ⟨v, none, some t, .Singleton, false, 0⟩ t rfl hinv
      simp only [applyOp, World.Provide, hv]
      exact h
  | provideF rt f lc =>
    exact RegInv_insert w (w.tokens ++ [providedKey rt]) cid w.tokens.length
      ⟨.nilv, some f, some rt, lc, false, 0⟩ rt rfl hinv
  | registerB regs =>
    show RegInv (World.Register w cid regs) cid
    induction regs generalizing w with
    | nil => exact hinv
    | cons r rest ih =>
      have hr : r.typ.isSome = true := hok r (by simp)
      obtain ⟨u, hu⟩ := Option.isSome_iff_exists.mp hr
      have hstep : RegInv (r.registerTo w cid) cid := by
        have h := RegInv_insert w w.tokens cid r.token
          ⟨(match r.factory with | some _ => .nilv | none => r.value),
            r.factory, r.typ, r.lifecycle, false, 0⟩ u hu hinv
        rw [show r.registerTo w cid =
            World.updateContainer ⟨w.entries ++
                [⟨(match r.factory with | some _ => .nilv | none => r.value),
                  r.factory, r.typ, r.lifecycle, false, 0⟩], w.containers, w.tokens⟩ cid
              (fun c => ⟨tokPut c.registry r.token w.entries.length,
                typePut c.typeRegistry u w.entries.length, c.parent⟩)
          from by unfold Registration.registerTo World.addEntry; rw [hu]]
        exact h
      exact ih (r.registerTo w cid) hstep (fun r2 hr2 => hok r2 (List.mem_cons_of_mem _ hr2))

/-- C5, amended: over registration sequences whose token-based registrations
have a non-interface element type, the invariant holds — every handle-
reachable entry has its declared type set and appears in the type index
under that type; each operation only appends on the right of the index
list (so registration order is preserved); operations never mutate existing
entries; and resolve never changes a declared type.  (For an interface
element type, Bind leaves declaredType unset and the entry reachable by
handle only — see the counterexample.) -/
theorem registration_invariant_for_typed_registrations :
    (∀ (w : World) (cid : Nat) (ops : List RegOp), (∀ op ∈ ops, opOK op) →
        RegInv w cid → RegInv (applyOps w cid ops) cid) ∧
      (∀ (w : World) (cid : Nat) (op : RegOp) (u : GoType), ∃ tail,
          typeListAt (applyOp w cid op) cid u = typeListAt w cid u ++ tail) ∧
      (∀ (w : World) (cid : Nat) (op : RegOp) (eid : Nat) (e : Entry),
          w.entries[eid]? = some e → (applyOp w cid op).entries[eid]? = some e) ∧
      (∀ e : Entry, (Entry.resolve e).2.depType = e.depType) := by
  refine ⟨?_, ?_, entries_applyOp, resolve_preserves_depType⟩
  · intro w cid ops
    induction ops generalizing w with
    | nil => exact fun _ h => h
    | cons op rest ih =>
      intro hok hinv
      exact ih (applyOp w cid op) (fun o ho => hok o (by simp [ho]))
        (RegInv_applyOp w cid op (hok op (by simp)) hinv)
  · intro w cid op u
    cases op with
    | provideV v =>
      cases hv : v.typeOf with
      | none => exact ⟨[], by simp [applyOp, World.Provide, hv]⟩
      | some t =>
        obtain ⟨tail, htail⟩ := typeListAt_insert w (w.tokens ++ [providedKey t]) cid
          w.tokens.length ⟨v, none, some t, .Singleton, false, 0⟩ t u
        refine ⟨tail, ?_⟩
        simp only [applyOp, World.Provide, hv]
        exact htail
    | provideF rt f lc =>
      exact typeListAt_insert w (w.tokens ++ [providedKey rt]) cid
        w.tokens.length ⟨.nilv, some f, some rt, lc, false, 0⟩ rt u
    | registerB regs =>
      show ∃ tail, typeListAt (World.Register w cid regs) cid u = _
      induction regs generalizing w with
      | nil => exact ⟨[], by simp [World.Register]⟩
      | cons r rest ih =>
        obtain ⟨t1, h1⟩ := typeListAt_registerTo r w cid u
        obtain ⟨t2, h2⟩ := ih (r.registerTo w cid)
        refine ⟨t1 ++ t2, ?_⟩
        show typeListAt (World.Register (r.registerTo w cid) cid rest) cid u = _
        rw [h2, h1, List.append_assoc]

/-- Witness for the amended C5 on concrete operations. -/
theorem registration_invariant_for_typed_registrations_witness :
    RegInv (applyOps rootWorld 0 [RegOp.provideV (.bare (.base 0) 1)]) 0 ∧
      (∃ tail, typeListAt (applyOp rootWorld 0 (RegOp.provideV (.bare (.base 0) 1)))
          0 (.base 0) = typeListAt rootWorld 0 (.base 0) ++ tail) ∧
      ((applyOp (injectWorld 0) 0 (RegOp.provideV (.bare (.base 1) 2))).entries[0]? =
        some ⟨.bare (.base 0) 0, none, some (.base 0), .Singleton, false, 0⟩) ∧
      (Entry.resolve ⟨.bare (.base 0) 0, none, some (.base 0), .Singleton, false, 0⟩).2.depType =
        some (.base 0) := by
  have h := registration_invariant_for_typed_registrations
  refine ⟨h.1 rootWorld 0 [RegOp.provideV (.bare (.base 0) 1)] ?_ ?_,
    h.2.1 rootWorld 0 (RegOp.provideV (.bare (.base 0) 1)) (.base 0),
    h.2.2.1 (injectWorld 0) 0 (RegOp.provideV (.bare (.base 1) 2)) 0
      ⟨.bare (.base 0) 0, none, some (.base 0), .Singleton, false, 0⟩ rfl,
    h.2.2.2 ⟨.bare (.base 0) 0, none, some (.base 0), .Singleton, false, 0⟩⟩
  · intro op hop
    rw [List.mem_singleton.mp hop]
    trivial
  · intro c hc tok eid hmem
    rw [show rootWorld.containers[0]? = some ⟨[], [], none⟩ from rfl] at hc
    cases hc
    simp at hmem

/-- Witness for C4 at n = 3 with a concrete injective factory. -/
theorem prototype_factory_invoked_each_time_witness :
    (resolveN 3 (prototypeEntry (.base 0) (fun i => .bare (.base 0) i))).2.calls = 3 ∧
      (resolveN 3 (prototypeEntry (.base 0) (fun i => .bare (.base 0) i))).1 =
        (List.range 3).map (fun i => .bare (.base 0) i) ∧
      ((resolveN 3 (prototypeEntry (.base 0) (fun i => .bare (.base 0) i))).1).Nodup := by
  have h := prototype_factory_invoked_each_time (.base 0) (fun i => .bare (.base 0) i) 3
  exact ⟨h.1, h.2.1, h.2.2 (fun i j hij => by simpa using hij)⟩

end DShot
